import Mathlib

/-!
# Verification of `browsession.py` (Browser Session SafeKeeper)

A shallow embedding of the backup lifecycle controller of `src/browsession.py`
and proofs of the specification claims about it.

Modelling conventions:
* File contents are abstract fingerprints (`Nat`); two files are equal exactly
  when their fingerprints are.  Directories directly under the profile root are
  one level deep: a list of member files `(name, fingerprint)`.
* Timestamps (`st_ctime`, `st_mtime`) are `Nat`.
* The backup root directory is a `List BackupEntry` in `os.scandir` order;
  a `BackupEntry` models one `os.DirEntry` (directory or archived `.zip` file).
* Python's `sorted(..., key=..., reverse=True)` (stable descending sort) is
  modelled by the stable insertion sort `sortByDesc`.
* Python's substring test `tag in name` is modelled by `strContains`.
* Exceptions that a function raises and its caller catches are modelled with
  `Except`; per-entry I/O failures (`PermissionError`, `FileNotFoundError`,
  partial `shutil.copytree` errors) are oracles carried by the profile entries
  (`locked`, `failMembers`), since they are decided by the operating system.
-/

namespace Browsession

/-- Python `needle in hay` for strings: substring containment. -/
def strContains (needle hay : String) : Bool :=
  decide (needle.data <:+: hay.data)

/-- Python `str.casefold`/`str.lower` on the tag strings involved (they are
ASCII in every configuration the code ships): lower-case each character. -/
def casefold (s : String) : String :=
  String.mk (s.data.map Char.toLower)

/-- A node in the browser profile: a file with a content fingerprint, or a
directory holding member files. -/
inductive Node where
  | file (content : Nat)
  | dir (members : List (String × Nat))
deriving DecidableEq, Repr

/-- One entry directly under the browser profile root, together with the I/O
behaviour it exhibits when copied: a `locked` file raises `PermissionError`
on `shutil.copy2`, and `failMembers` are the directory members whose copy
fails inside `shutil.copytree` (collected into the raised `shutil.Error`). -/
structure ProfileEntry where
  name : String
  node : Node
  locked : Bool
  failMembers : List String
deriving DecidableEq, Repr

/-- One `os.DirEntry` under the backup root: a backup directory or an archived
`.zip` file.  `data` is the directory listing (meaningful for directories). -/
structure BackupEntry where
  name : String
  isDir : Bool
  ctime : Nat
  mtime : Nat
  data : List (String × Node)
deriving DecidableEq, Repr

/-- The parsed configuration (the spec's `BackupPolicy`): tag strings, the two
file manifests, the datetime formatter and the four retention limits.
`fmtTime` stands for `datetime.now().strftime(BackupDirDatetimeFormat)`. -/
structure Config where
  fullBackupTag : String
  emergencyBackupTag : String
  mainFiles : List String
  extraFiles : List String
  fmtTime : Nat → String
  noncompressedFullBackupsLimit : Nat
  noncompressedBackupsLimit : Nat
  fullBackupsStoreLimit : Nat
  emergencyBackupsStoreLimit : Nat

/-- `config['Settings']['EmergencyBackupTag'] in entry.name`: the emergency
classification used by `get_latest_backup_dir`, `compress_backups` and
`remove_old_backups`. -/
def isEmergencyEntry (cfg : Config) (e : BackupEntry) : Bool :=
  strContains cfg.emergencyBackupTag e.name

/-- Insert an entry into a list sorted descending by `key`, after all entries
with a greater-or-equal key (so the overall sort is stable, like Python's). -/
def insertByDesc (key : BackupEntry → Nat) (e : BackupEntry) :
    List BackupEntry → List BackupEntry
  | [] => [e]
  | x :: xs => if key x < key e then e :: x :: xs else x :: insertByDesc key e xs

/-- Python `sorted(entries, key=key, reverse=True)`: stable descending sort. -/
def sortByDesc (key : BackupEntry → Nat) (l : List BackupEntry) : List BackupEntry :=
  l.foldl (fun acc e => insertByDesc key e acc) []

/-- The loop body of `remove_old_backups` (lines 227-239): walk the entries
newest-first carrying the two counters `skipped_latest_full_count` and
`skipped_latest_emergency_count`; return the entries that are *not* removed. -/
def pruneWalk (cfg : Config) (skipFullLimit skipEmLimit : Nat) :
    List BackupEntry → Nat → Nat → List BackupEntry
  | [], _, _ => []
  | e :: rest, skippedFull, skippedEm =>
    if skippedFull < skipFullLimit then
      if isEmergencyEntry cfg e then
        if skippedEm < skipEmLimit then
          e :: pruneWalk cfg skipFullLimit skipEmLimit rest skippedFull (skippedEm + 1)
        else
          pruneWalk cfg skipFullLimit skipEmLimit rest skippedFull skippedEm
      else
        e :: pruneWalk cfg skipFullLimit skipEmLimit rest (skippedFull + 1) skippedEm
    else
      pruneWalk cfg skipFullLimit skipEmLimit rest skippedFull skippedEm

/-- `remove_old_backups(skip_latest_full_count, skip_latest_emergency_limit)`:
scan the backup root, sort all entries descending by modification time, walk
them with the two counters and delete the non-spared ones.  The result is the
backup root after the pass (in original scandir order). -/
def remove_old_backups (cfg : Config) (skipFullLimit skipEmLimit : Nat)
    (root : List BackupEntry) : List BackupEntry :=
  let walkOrder := sortByDesc (fun e => e.mtime) root
  let kept := pruneWalk cfg skipFullLimit skipEmLimit walkOrder 0 0
  root.filter (fun e => decide (e ∈ kept))

/-- Spec-side reference (for the prune-pass claims): the longest prefix of the
newest-first list that contains at most `n` non-emergency entries, cut right
after the `n`-th non-emergency entry.  Entries after this window are the ones
seen once the running non-emergency count has reached the limit. -/
def window (cfg : Config) : Nat → List BackupEntry → List BackupEntry
  | 0, _ => []
  | _, [] => []
  | n + 1, e :: rest =>
    if isEmergencyEntry cfg e then e :: window cfg (n + 1) rest
    else e :: window cfg n rest

/-- Spec-side reference (for the prune-pass claims): keep every non-emergency
entry and the first `m` emergency entries; drop emergency entries beyond the
budget `m`. -/
def keepEmBudget (cfg : Config) : Nat → List BackupEntry → List BackupEntry
  | _, [] => []
  | 0, e :: rest =>
    if isEmergencyEntry cfg e then keepEmBudget cfg 0 rest
    else e :: keepEmBudget cfg 0 rest
  | m + 1, e :: rest =>
    if isEmergencyEntry cfg e then e :: keepEmBudget cfg m rest
    else e :: keepEmBudget cfg (m + 1) rest

/-- `browser_profile_files.union(browser_profile_extra_files)` when
`include_extra`, else `browser_profile_files` (sets, modelled as duplicate-free
lists). -/
def filesToCopy (cfg : Config) (includeExtra : Bool) : List String :=
  if includeExtra then
    cfg.mainFiles ++ cfg.extraFiles.filter (fun n => !cfg.mainFiles.contains n)
  else cfg.mainFiles

/-- A per-entry copy failure, caught and logged by `copy_profile` without
aborting the pass: `FileNotFoundError`, `PermissionError`, or the
`shutil.Error` raised by a partial `shutil.copytree`. -/
inductive CopyFailureKind where
  | notFound
  | permissionDenied
  | dirCopyFailed (failed : List String)
deriving DecidableEq, Repr

/-- The error `copy_profile` reports when `os.mkdir(destination_path)` raises
`FileExistsError` (the backup attempt is skipped entirely). -/
inductive CopyError where
  | destinationExists
deriving DecidableEq, Repr

/-- The spec CopyReport: in the code these are the per-entry log lines
(per-file debug lines on success and per-entry warnings on failure). -/
structure CopyReport where
  copied : List String
  failures : List (String × CopyFailureKind)
deriving DecidableEq, Repr

/-- Members of a profile directory that `shutil.copytree` actually lands in
the backup: `*.tmp` members are skipped by the ignore pattern, and `failed`
members error out (they are reported but the rest is kept). -/
def copiedDirMembers (members : List (String × Nat)) (failed : List String) :
    List (String × Nat) :=
  members.filter (fun m => !m.1.endsWith ".tmp" && !failed.contains m.1)

/-- Copying one manifest entry (the body of the `for filename in files_to_copy`
loop of `copy_profile`): what lands in the backup directory, and the per-entry
failure logged, if any. -/
def copyOutcome (profile : List ProfileEntry) (n : String) :
    Option (String × Node) × Option CopyFailureKind :=
  match profile.find? (fun pe => pe.name == n) with
  | none => (none, some .notFound)
  | some pe =>
    match pe.node with
    | .file c =>
      if pe.locked then (none, some .permissionDenied)
      else (some (n, .file c), none)
    | .dir ms =>
      if pe.failMembers.isEmpty then
        (some (n, .dir (copiedDirMembers ms [])), none)
      else
        (some (n, .dir (copiedDirMembers ms pe.failMembers)),
          some (.dirCopyFailed pe.failMembers))

/-- The directory listing of a freshly copied backup directory. -/
def copyData (profile : List ProfileEntry) (manifest : List String) :
    List (String × Node) :=
  manifest.filterMap (fun n => (copyOutcome profile n).1)

/-- Manifest entries copied without a logged failure. -/
def copySuccesses (profile : List ProfileEntry) (manifest : List String) :
    List String :=
  manifest.filter (fun n => (copyOutcome profile n).2.isNone)

/-- Manifest entries with a logged per-entry failure. -/
def copyFailures (profile : List ProfileEntry) (manifest : List String) :
    List (String × CopyFailureKind) :=
  manifest.filterMap (fun n => ((copyOutcome profile n).2).map (fun k => (n, k)))

/-- `copy_profile(destination_path, include_extra)` (lines 145-175): create the
destination directory (if it already exists, log and skip -- the filesystem is
untouched), then copy every manifest entry, tolerating per-entry failures.
Returns the backup root after the call together with the report. -/
def copy_profile (cfg : Config) (profile : List ProfileEntry)
    (root : List BackupEntry) (destName : String) (now : Nat)
    (includeExtra : Bool) : List BackupEntry × Except CopyError CopyReport :=
  if root.any (fun e => e.name == destName) then
    (root, .error .destinationExists)
  else
    let manifest := filesToCopy cfg includeExtra
    (root ++ [{ name := destName, isDir := true, ctime := now, mtime := now,
                data := copyData profile manifest }],
      .ok { copied := copySuccesses profile manifest,
            failures := copyFailures profile manifest })

/-- Python `max(candidates, key=lambda e: e.stat().st_ctime, default=None)`:
keep the current maximum, replacing it only on a strictly larger key. -/
def latestAux (keep : BackupEntry → Bool) :
    Option BackupEntry → List BackupEntry → Option BackupEntry
  | none, [] => none
  | some b, [] => some b
  | none, e :: rest =>
    if keep e then latestAux keep (some e) rest
    else latestAux keep none rest
  | some b, e :: rest =>
    if keep e then
      if b.ctime < e.ctime then latestAux keep (some e) rest
      else latestAux keep (some b) rest
    else latestAux keep (some b) rest

/-- `get_latest_backup_dir(exclude_emergency)` (lines 177-183): the directory
entry (directories only) with the greatest creation time, excluding
emergency-tagged names when asked to. -/
def get_latest_backup_dir (cfg : Config) (excludeEmergency : Bool)
    (root : List BackupEntry) : Option BackupEntry :=
  latestAux
    (fun e => e.isDir && (!excludeEmergency || !isEmergencyEntry cfg e))
    none root

/-- `archive(entry)` (lines 185-193): `shutil.make_archive` produces
`<name>.zip`, `os.utime` forces its modification time to the original
directory creation time, and the directory is removed.  The zip's own
creation time is the wall clock `now` at archiving (it is never consulted
afterwards, since the zip is not a directory). -/
def archive (now : Nat) (e : BackupEntry) : BackupEntry :=
  { name := e.name ++ ".zip", isDir := false, ctime := now, mtime := e.ctime,
    data := e.data }

/-- The loop of `compress_backups` (lines 201-213): walk the backup
*directories* newest-first by creation time with the two skip counters and
collect the names of the entries to be archived. -/
def compressWalkNames (cfg : Config) (skipFullLimit skipEmLimit : Nat) :
    List BackupEntry → Nat → Nat → List String
  | [], _, _ => []
  | e :: rest, skippedFull, skippedEm =>
    if isEmergencyEntry cfg e then
      if skippedEm < skipEmLimit then
        compressWalkNames cfg skipFullLimit skipEmLimit rest skippedFull (skippedEm + 1)
      else
        e.name :: compressWalkNames cfg skipFullLimit skipEmLimit rest skippedFull skippedEm
    else
      if skippedFull < skipFullLimit then
        compressWalkNames cfg skipFullLimit skipEmLimit rest (skippedFull + 1) skippedEm
      else
        e.name :: compressWalkNames cfg skipFullLimit skipEmLimit rest skippedFull skippedEm

/-- `compress_backups(skip_latest_full_count, skip_latest_emergency_count)`:
every backup directory beyond the two skip budgets is replaced by its archive;
files (already-archived backups) and skipped directories stay as they are. -/
def compress_backups (cfg : Config) (skipFullLimit skipEmLimit : Nat)
    (now : Nat) (root : List BackupEntry) : List BackupEntry :=
  let dirsOrder := sortByDesc (fun e => e.ctime) (root.filter (fun e => e.isDir))
  let toArchive := compressWalkNames cfg skipFullLimit skipEmLimit dirsOrder 0 0
  root.map (fun e => if e.isDir && decide (e.name ∈ toArchive) then archive now e else e)

/-- `filecmp.dircmp` diff count for one pair of common entries: differing
fingerprints for a file pair, the number of differing common members for a
directory pair, and zero for a file/directory mismatch (`common_funny`, which
`dircmp_count_diff_files` does not count). -/
def nodeDiffCount : Node → Node → Nat
  | .file c₁, .file c₂ => if c₁ = c₂ then 0 else 1
  | .dir ms₁, .dir ms₂ =>
    ms₂.foldl (fun acc m =>
      match ms₁.find? (fun m₁ => m₁.1 == m.1) with
      | none => acc
      | some m₁ => acc + (if m₁.2 = m.2 then 0 else 1)) 0
  | _, _ => 0

/-- The number of names common to the live profile and a backup directory
(`dircmp.common`). -/
def commonCount (profile : List ProfileEntry)
    (backupData : List (String × Node)) : Nat :=
  backupData.countP (fun b => (profile.find? (fun pe => pe.name == b.1)).isSome)

/-- `dircmp_count_diff_files` (lines 241-245): total differing common files,
recursing one level into common directories. -/
def countDiffFiles (profile : List ProfileEntry)
    (backupData : List (String × Node)) : Nat :=
  backupData.foldl (fun acc b =>
    match profile.find? (fun pe => pe.name == b.1) with
    | none => acc
    | some pe => acc + nodeDiffCount pe.node b.2) 0

/-- `check_profile_files_changed(backup_dir_path)` (lines 247-254): changed if
the profile and the backup share no entries at all, or if any compared common
file differs. -/
def check_profile_files_changed (profile : List ProfileEntry)
    (backupData : List (String × Node)) : Bool :=
  if commonCount profile backupData == 0 then true
  else decide (0 < countDiffFiles profile backupData)

/-- The mutable world `make_backup` acts on: the live profile, the backup root
listing, and the current wall-clock time. -/
structure SysState where
  profile : List ProfileEntry
  root : List BackupEntry
  now : Nat

/-- The fresh backup directory name, timestamp formatted per policy plus the
parenthesised tag. -/
def mkBackupDirName (cfg : Config) (now : Nat) (tag : String) : String :=
  cfg.fmtTime now ++ " (" ++ tag ++ ")"

/-- `make_backup(emergency)` (lines 256-277): de-duplicate against the latest
eligible backup, otherwise copy the profile into a freshly named directory;
after a full (non-emergency) backup run the compress pass then the prune pass
with the policy-configured limits. -/
def make_backup (cfg : Config) (emergency : Bool) (s : SysState) : SysState :=
  let existing := get_latest_backup_dir cfg (!emergency) s.root
  let skip := match existing with
    | some b => !check_profile_files_changed s.profile b.data
    | none => false
  if skip then s
  else
    let tag := if emergency then cfg.emergencyBackupTag else cfg.fullBackupTag
    let destName := mkBackupDirName cfg s.now tag
    let root1 := (copy_profile cfg s.profile s.root destName s.now (!emergency)).1
    if emergency then { s with root := root1 }
    else
      let root2 := compress_backups cfg cfg.noncompressedFullBackupsLimit
        cfg.noncompressedBackupsLimit s.now root1
      let root3 := remove_old_backups cfg cfg.fullBackupsStoreLimit
        cfg.emergencyBackupsStoreLimit root2
      { s with root := root3 }

/-- Sample configuration used by concrete witnesses: the default tag strings
and retention limits of `load_config`. -/
def exCfg : Config where
  fullBackupTag := "regular"
  emergencyBackupTag := "emergency"
  mainFiles := ["Preferences"]
  extraFiles := ["History"]
  fmtTime := fun n => toString n
  noncompressedFullBackupsLimit := 1
  noncompressedBackupsLimit := 1
  fullBackupsStoreLimit := 5
  emergencyBackupsStoreLimit := 3

/-- Sample regular (non-emergency) backup directory entry. -/
def exF : BackupEntry where
  name := "2 (regular)"
  isDir := true
  ctime := 2
  mtime := 2
  data := []

/-- Sample emergency backup directory entry, older than `exF`. -/
def exE : BackupEntry where
  name := "1 (emergency)"
  isDir := true
  ctime := 1
  mtime := 1
  data := []

/-- Sample profile entry that copies cleanly. -/
def exPrefFile : ProfileEntry where
  name := "Preferences"
  node := Node.file 7
  locked := false
  failMembers := []

/-- Sample profile entry whose copy raises `PermissionError`. -/
def exLockedFile : ProfileEntry where
  name := "History"
  node := Node.file 9
  locked := true
  failMembers := []

/-- One option of the `MainFilesToBackup` section: the key is a file name, the
value is absent (`allow_no_value`) or a raw string. -/
structure ManifestOpt where
  name : String
  value : Option String
deriving DecidableEq, Repr

/-- The spec's startup error taxonomy: `configurationError` is the fatal
`RuntimeError` raised by `load_config` (and the failed strategy lookup of
`is_browser_running`); `valueError` is `configparser`'s `ValueError` on a
non-boolean option value. -/
inductive ConfigError where
  | configurationError
  | valueError
deriving DecidableEq, Repr

/-- `configparser.ConfigParser.getboolean`: the `BOOLEAN_STATES` table,
matched on the lower-cased value; anything else raises `ValueError`. -/
def parseBool? (s : String) : Option Bool :=
  let t := casefold s
  if t = "1" ∨ t = "yes" ∨ t = "true" ∨ t = "on" then some true
  else if t = "0" ∨ t = "no" ∨ t = "false" ∨ t = "off" then some false
  else none

/-- `if opt_value and not config['MainFilesToBackup'].getboolean(opt_name)`:
an absent or empty value is falsy, so the entry is included; otherwise the
value decides, and a non-boolean value raises. -/
def optIncluded (o : ManifestOpt) : Except ConfigError Bool :=
  match o.value with
  | none => Except.ok true
  | some v =>
    if v = "" then Except.ok true
    else
      match parseBool? v with
      | some b => Except.ok b
      | none => Except.error ConfigError.valueError

/-- The `for opt_name, opt_value in config.items('MainFilesToBackup')` loop of
`load_config` (lines 78-84): collect the included names and count those that
exist under the profile root (`profileFiles`). -/
def loadMainFilesAux (profileFiles : List String) :
    List ManifestOpt → List String → Nat → Except ConfigError (List String × Nat)
  | [], acc, cnt => Except.ok (acc, cnt)
  | o :: rest, acc, cnt =>
    match optIncluded o with
    | Except.error err => Except.error err
    | Except.ok false => loadMainFilesAux profileFiles rest acc cnt
    | Except.ok true =>
      loadMainFilesAux profileFiles rest (acc ++ [o.name])
        (if decide (o.name ∈ profileFiles) then cnt + 1 else cnt)

/-- `load_config` lines 76-88: the MainFiles manifest validation.  Succeeds
with the included file set when at least one included entry exists under the
profile root, else raises the fatal startup error. -/
def loadMainFiles (opts : List ManifestOpt) (profileFiles : List String) :
    Except ConfigError (List String) :=
  match loadMainFilesAux profileFiles opts [] 0 with
  | Except.error err => Except.error err
  | Except.ok (files, cnt) =>
    if cnt < 1 then Except.error ConfigError.configurationError
    else Except.ok files

/-- Whether an option is included in the manifest (value absent, empty or
truthy). -/
def optIncludedB (o : ManifestOpt) : Bool :=
  match optIncluded o with
  | Except.ok true => true
  | _ => false

/-- The number of included manifest entries that exist under the profile
root. -/
def enabledExistingCount (profileFiles : List String)
    (opts : List ManifestOpt) : Nat :=
  opts.countP (fun o => optIncludedB o && decide (o.name ∈ profileFiles))

/-- The filesystem observations the five detection strategies look at. -/
structure ProbeEnv where
  sessionsHasLockedFile : Bool
  historyJournalSize : Option Nat
  sessionstoreExists : Bool
  lockfileExists : Bool
  ssdfpLockFileExists : Bool
deriving DecidableEq, Repr

/-- `check_chromium_is_running_win`: any unreadable file under `Sessions`. -/
def check_chromium_is_running_win (env : ProbeEnv) : Bool :=
  env.sessionsHasLockedFile

/-- `check_chromium_is_running`: `History-journal` exists with non-zero
size. -/
def check_chromium_is_running (env : ProbeEnv) : Bool :=
  match env.historyJournalSize with
  | none => false
  | some sz => decide (0 < sz)

/-- `check_firefox_is_running`: `sessionstore.jsonlz4` absent. -/
def check_firefox_is_running (env : ProbeEnv) : Bool :=
  !env.sessionstoreExists

/-- `check_opera_is_running_win`: `lockfile` exists. -/
def check_opera_is_running_win (env : ProbeEnv) : Bool :=
  env.lockfileExists

/-- `check_opera_is_running`: some `ssdfp*.lock` file exists. -/
def check_opera_is_running (env : ProbeEnv) : Bool :=
  env.ssdfpLockFileExists

/-- The casefolded keys of the strategy dispatch dictionary. -/
def knownStrategyTags : List String :=
  ["chromium-win", "chromium", "firefox", "opera-win", "opera"]

/-- `is_browser_running` (lines 133-142): case-insensitive dictionary dispatch
on `config['Settings']['BrowserStateDetection']`; a missing key is the
`KeyError` the spec maps to `ConfigurationError`. -/
def is_browser_running (detection : String) (env : ProbeEnv) :
    Except ConfigError Bool :=
  let t := casefold detection
  if t = "chromium-win" then Except.ok (check_chromium_is_running_win env)
  else if t = "chromium" then Except.ok (check_chromium_is_running env)
  else if t = "firefox" then Except.ok (check_firefox_is_running env)
  else if t = "opera-win" then Except.ok (check_opera_is_running_win env)
  else if t = "opera" then Except.ok (check_opera_is_running env)
  else Except.error ConfigError.configurationError

/-- Second regular backup directory (older) for concrete witnesses. -/
def exF2 : BackupEntry where
  name := "1 (regular)"
  isDir := true
  ctime := 1
  mtime := 1
  data := []

/-- A policy whose regular tag "regular" contains the emergency tag "r". -/
def exCfgTagOverlap : Config :=
  { exCfg with emergencyBackupTag := "r" }

/-- The complement of `make_backup`'s skip condition: there is no latest
eligible backup, or the profile changed relative to it. -/
def proceedsToCopy (cfg : Config) (emergency : Bool) (s : SysState) : Bool :=
  match get_latest_backup_dir cfg (!emergency) s.root with
  | some b => check_profile_files_changed s.profile b.data
  | none => true

/-- `make_backup(False)` that proceeds to copy: append a fresh regular-named
directory holding a copy of MainFiles and ExtraFiles, then run the compress
pass and then the prune pass with the policy-configured limits. -/
def fullRootAfter (cfg : Config) (s : SysState) : List BackupEntry :=
  remove_old_backups cfg cfg.fullBackupsStoreLimit
    cfg.emergencyBackupsStoreLimit
    (compress_backups cfg cfg.noncompressedFullBackupsLimit
      cfg.noncompressedBackupsLimit s.now
      (s.root ++
        [{ name := mkBackupDirName cfg s.now cfg.fullBackupTag,
           isDir := true, ctime := s.now, mtime := s.now,
           data := copyData s.profile (filesToCopy cfg true) }]))

/-- The directory entry a proceeding full backup appends (the fresh name, the
current clock as both timestamps, and a copy of MainFiles ∪ ExtraFiles). -/
def freshFullEntry (cfg : Config) (s : SysState) : BackupEntry :=
  { name := mkBackupDirName cfg s.now cfg.fullBackupTag, isDir := true,
    ctime := s.now, mtime := s.now,
    data := copyData s.profile (filesToCopy cfg true) }

theorem window_nil (cfg : Config) (n : Nat) : window cfg n [] = [] := by
  cases n <;> rfl

/-- The prune walk, with counters started at `sf`/`se`, keeps exactly: the
window of the first `N - sf` non-emergency entries, thinned to the first
`M - se` emergency entries. -/
theorem pruneWalk_eq (cfg : Config) (N M : Nat) :
    ∀ (l : List BackupEntry) (sf se : Nat),
      pruneWalk cfg N M l sf se = keepEmBudget cfg (M - se) (window cfg (N - sf) l)
  | [], sf, se => by
    simp [pruneWalk, window_nil, keepEmBudget]
  | e :: rest, sf, se => by
    by_cases hsf : sf < N
    · obtain ⟨k, hk⟩ : ∃ k, N - sf = k + 1 := ⟨N - sf - 1, by omega⟩
      by_cases hem : isEmergencyEntry cfg e
      · by_cases hse : se < M
        · obtain ⟨m', hm⟩ : ∃ m', M - se = m' + 1 := ⟨M - se - 1, by omega⟩
          have hm' : M - (se + 1) = m' := by omega
          rw [pruneWalk, if_pos hsf, if_pos hem, if_pos hse,
            pruneWalk_eq cfg N M rest sf (se + 1), hk, hm, hm', window, if_pos hem,
            keepEmBudget, if_pos hem]
        · have hse0 : M - se = 0 := by omega
          rw [pruneWalk, if_pos hsf, if_pos hem, if_neg hse,
            pruneWalk_eq cfg N M rest sf se, hk, hse0, window, if_pos hem,
            keepEmBudget, if_pos hem]
      · have hk' : N - (sf + 1) = k := by omega
        rw [pruneWalk, if_pos hsf, if_neg hem,
          pruneWalk_eq cfg N M rest (sf + 1) se, hk, hk', window, if_neg hem]
        cases hMse : M - se with
        | zero => rw [keepEmBudget, if_neg hem]
        | succ m' => rw [keepEmBudget, if_neg hem]
    · have h0 : N - sf = 0 := by omega
      rw [pruneWalk, if_neg hsf, pruneWalk_eq cfg N M rest sf se, h0]
      simp only [window]

theorem insertByDesc_perm (key : BackupEntry → Nat) (e : BackupEntry)
    (l : List BackupEntry) : (insertByDesc key e l).Perm (e :: l) := by
  induction l with
  | nil => rfl
  | cons x xs ih =>
    rw [insertByDesc]
    by_cases h : key x < key e
    · rw [if_pos h]
    · rw [if_neg h]
      exact ((ih.cons x).trans (List.Perm.swap e x xs))

theorem sortByDesc_aux_perm (key : BackupEntry → Nat) :
    ∀ (l acc : List BackupEntry),
      (l.foldl (fun acc e => insertByDesc key e acc) acc).Perm (acc ++ l)
  | [], acc => by simp
  | e :: rest, acc => by
    refine ((sortByDesc_aux_perm key rest (insertByDesc key e acc)).trans ?_)
    refine (((insertByDesc_perm key e acc).append_right rest).trans ?_)
    exact List.perm_middle.symm

theorem sortByDesc_perm (key : BackupEntry → Nat) (l : List BackupEntry) :
    (sortByDesc key l).Perm l := by
  simpa using sortByDesc_aux_perm key l []

theorem insertByDesc_sorted (key : BackupEntry → Nat) (e : BackupEntry)
    {l : List BackupEntry} (h : l.Pairwise (fun a b => key b ≤ key a)) :
    (insertByDesc key e l).Pairwise (fun a b => key b ≤ key a) := by
  induction l with
  | nil => simp [insertByDesc]
  | cons x xs ih =>
    obtain ⟨hx, hxs⟩ := List.pairwise_cons.mp h
    rw [insertByDesc]
    by_cases hkey : key x < key e
    · rw [if_pos hkey]
      refine List.Pairwise.cons ?_ (List.Pairwise.cons hx hxs)
      intro y hy
      rcases List.mem_cons.mp hy with rfl | hy
      · exact Nat.le_of_lt hkey
      · exact Nat.le_trans (hx y hy) (Nat.le_of_lt hkey)
    · rw [if_neg hkey]
      refine List.Pairwise.cons ?_ (ih hxs)
      intro y hy
      have : y ∈ e :: xs := (insertByDesc_perm key e xs).mem_iff.mp hy
      rcases List.mem_cons.mp this with rfl | hy'
      · exact Nat.le_of_not_lt hkey
      · exact hx y hy'

theorem sortByDesc_sorted (key : BackupEntry → Nat) (l : List BackupEntry) :
    (sortByDesc key l).Pairwise (fun a b => key b ≤ key a) := by
  suffices h : ∀ (l acc : List BackupEntry), acc.Pairwise (fun a b => key b ≤ key a) →
      (l.foldl (fun acc e => insertByDesc key e acc) acc).Pairwise (fun a b => key b ≤ key a) by
    exact h l [] (List.Pairwise.nil)
  intro l
  induction l with
  | nil => intro acc h; exact h
  | cons e rest ih =>
    intro acc h
    exact ih (insertByDesc key e acc) (insertByDesc_sorted key e h)

/-- If `B` has a strictly greater key than every other element, the stable
descending sort puts `B` first. -/
theorem sortByDesc_eq_cons_of_strict_max (key : BackupEntry → Nat)
    (l : List BackupEntry) (B : BackupEntry) (hmem : B ∈ l)
    (hmax : ∀ e ∈ l, e ≠ B → key e < key B) :
    ∃ rest, sortByDesc key l = B :: rest ∧ rest.Perm (l.erase B) := by
  have hperm : (sortByDesc key l).Perm l := sortByDesc_perm key l
  have hBmem : B ∈ sortByDesc key l := hperm.mem_iff.mpr hmem
  have hsorted := sortByDesc_sorted key l
  cases hs : sortByDesc key l with
  | nil => rw [hs] at hBmem; cases hBmem
  | cons h t =>
    have hhB : h = B := by
      by_contra hne
      have hhmem : h ∈ l := hperm.mem_iff.mp (hs ▸ List.mem_cons_self h t)
      have hlt : key h < key B := hmax h hhmem hne
      rw [hs] at hBmem
      rcases List.mem_cons.mp hBmem with rfl | hBt
      · exact hne rfl
      · rw [hs] at hsorted
        exact Nat.not_le_of_lt hlt ((List.pairwise_cons.mp hsorted).1 B hBt)
    subst hhB
    refine ⟨t, rfl, ?_⟩
    have := hperm.erase h
    rw [hs, List.erase_cons_head] at this
    exact this

theorem pruneWalk_sublist (cfg : Config) (N M : Nat) :
    ∀ (l : List BackupEntry) (sf se : Nat), (pruneWalk cfg N M l sf se).Sublist l
  | [], _, _ => List.Sublist.refl []
  | e :: rest, sf, se => by
    rw [pruneWalk]
    by_cases hsf : sf < N
    · rw [if_pos hsf]
      by_cases hem : isEmergencyEntry cfg e
      · rw [if_pos hem]
        by_cases hse : se < M
        · rw [if_pos hse]
          exact (pruneWalk_sublist cfg N M rest sf (se + 1)).cons₂ e
        · rw [if_neg hse]
          exact (pruneWalk_sublist cfg N M rest sf se).cons e
      · rw [if_neg hem]
        exact (pruneWalk_sublist cfg N M rest (sf + 1) se).cons₂ e
    · rw [if_neg hsf]
      exact (pruneWalk_sublist cfg N M rest sf se).cons e

theorem keepEmBudget_countP_nonEm (cfg : Config) :
    ∀ (m : Nat) (l : List BackupEntry),
      (keepEmBudget cfg m l).countP (fun e => !isEmergencyEntry cfg e) =
        l.countP (fun e => !isEmergencyEntry cfg e)
  | _, [] => by simp [keepEmBudget]
  | 0, e :: rest => by
    rw [keepEmBudget]
    by_cases hem : isEmergencyEntry cfg e
    · rw [if_pos hem, keepEmBudget_countP_nonEm cfg 0 rest, List.countP_cons]
      simp [hem]
    · rw [if_neg hem, List.countP_cons, List.countP_cons,
        keepEmBudget_countP_nonEm cfg 0 rest]
  | m + 1, e :: rest => by
    rw [keepEmBudget]
    by_cases hem : isEmergencyEntry cfg e
    · rw [if_pos hem, List.countP_cons, List.countP_cons,
        keepEmBudget_countP_nonEm cfg m rest]
    · rw [if_neg hem, List.countP_cons, List.countP_cons,
        keepEmBudget_countP_nonEm cfg (m + 1) rest]

theorem keepEmBudget_countP_em (cfg : Config) :
    ∀ (m : Nat) (l : List BackupEntry),
      (keepEmBudget cfg m l).countP (fun e => isEmergencyEntry cfg e) ≤ m
  | _, [] => by simp [keepEmBudget]
  | 0, e :: rest => by
    rw [keepEmBudget]
    by_cases hem : isEmergencyEntry cfg e
    · rw [if_pos hem]
      exact keepEmBudget_countP_em cfg 0 rest
    · rw [if_neg hem, List.countP_cons]
      simpa [hem] using keepEmBudget_countP_em cfg 0 rest
  | m + 1, e :: rest => by
    rw [keepEmBudget]
    by_cases hem : isEmergencyEntry cfg e
    · rw [if_pos hem, List.countP_cons]
      have := keepEmBudget_countP_em cfg m rest
      simp only [hem, if_true]
      omega
    · rw [if_neg hem, List.countP_cons]
      simpa [hem] using keepEmBudget_countP_em cfg (m + 1) rest

theorem window_countP_nonEm (cfg : Config) :
    ∀ (n : Nat) (l : List BackupEntry),
      (window cfg n l).countP (fun e => !isEmergencyEntry cfg e) ≤ n
  | 0, _ => by simp [window]
  | n + 1, [] => by simp [window]
  | n + 1, e :: rest => by
    rw [window]
    by_cases hem : isEmergencyEntry cfg e
    · rw [if_pos hem, List.countP_cons]
      simpa [hem] using window_countP_nonEm cfg (n + 1) rest
    · rw [if_neg hem, List.countP_cons]
      have := window_countP_nonEm cfg n rest
      simp only [hem, Bool.not_false, if_true]
      omega

theorem keepEmBudget_sublist (cfg : Config) :
    ∀ (m : Nat) (l : List BackupEntry), (keepEmBudget cfg m l).Sublist l
  | _, [] => by simp [keepEmBudget]
  | 0, e :: rest => by
    rw [keepEmBudget]
    by_cases hem : isEmergencyEntry cfg e
    · rw [if_pos hem]; exact (keepEmBudget_sublist cfg 0 rest).cons e
    · rw [if_neg hem]; exact (keepEmBudget_sublist cfg 0 rest).cons₂ e
  | m + 1, e :: rest => by
    rw [keepEmBudget]
    by_cases hem : isEmergencyEntry cfg e
    · rw [if_pos hem]; exact (keepEmBudget_sublist cfg m rest).cons₂ e
    · rw [if_neg hem]; exact (keepEmBudget_sublist cfg (m + 1) rest).cons₂ e

/-- The window is a prefix: the list splits as window ++ remainder. -/
theorem window_append_drop (cfg : Config) :
    ∀ (n : Nat) (l : List BackupEntry),
      window cfg n l ++ l.drop (window cfg n l).length = l
  | 0, l => by simp [window]
  | n + 1, [] => by simp [window_nil]
  | n + 1, e :: rest => by
    rw [window]
    by_cases hem : isEmergencyEntry cfg e
    · rw [if_pos hem]
      simpa using window_append_drop cfg (n + 1) rest
    · rw [if_neg hem]
      simpa using window_append_drop cfg n rest

/-- The list of entries the prune pass keeps is a permutation of the
walk-characterised kept list. -/
theorem remove_old_backups_perm_kept (cfg : Config) (N M : Nat)
    (root : List BackupEntry) (hnd : root.Nodup) :
    (remove_old_backups cfg N M root).Perm
      (keepEmBudget cfg M (window cfg N (sortByDesc (fun e => e.mtime) root))) := by
  set l := sortByDesc (fun e => e.mtime) root with hl
  have hperm : l.Perm root := sortByDesc_perm _ root
  have hlnd : l.Nodup := hperm.symm.nodup hnd
  have hkept : pruneWalk cfg N M l 0 0 = keepEmBudget cfg M (window cfg N l) := by
    simpa using pruneWalk_eq cfg N M l 0 0
  have hsub : (keepEmBudget cfg M (window cfg N l)).Sublist l := by
    refine (keepEmBudget_sublist cfg M _).trans ?_
    conv_rhs => rw [← window_append_drop cfg N l]
    exact List.sublist_append_left _ _
  have hkeptnd : (keepEmBudget cfg M (window cfg N l)).Nodup := hsub.nodup hlnd
  rw [remove_old_backups]
  simp only [← hl, hkept]
  refine List.Subperm.antisymm ?_ ?_
  · refine List.Nodup.subperm (List.Nodup.filter _ hnd) ?_
    intro x hx
    exact of_decide_eq_true (List.mem_filter.mp hx).2
  · refine List.Nodup.subperm hkeptnd ?_
    intro x hx
    refine List.mem_filter.mpr ⟨hperm.mem_iff.mp (hsub.subset hx), decide_eq_true hx⟩

/-- C1: after `remove_old_backups(N, M)`, at most `N` non-emergency entries
survive, and at most `M` (in fact none) of the surviving emergency entries sit
after the `N`-th-newest non-emergency entry in the newest-first
(by modification time) order. -/
theorem prune_pass_retention_invariant (cfg : Config) (N M : Nat)
    (root : List BackupEntry) (hnd : root.Nodup) :
    (remove_old_backups cfg N M root).countP (fun e => !isEmergencyEntry cfg e) ≤ N ∧
    ((sortByDesc (fun e => e.mtime) root).drop
        (window cfg N (sortByDesc (fun e => e.mtime) root)).length).countP
      (fun e => isEmergencyEntry cfg e &&
        decide (e ∈ remove_old_backups cfg N M root)) ≤ M := by
  set l := sortByDesc (fun e => e.mtime) root with hl
  have hperm : l.Perm root := sortByDesc_perm _ root
  have hlnd : l.Nodup := hperm.symm.nodup hnd
  have hkperm := remove_old_backups_perm_kept cfg N M root hnd
  constructor
  · rw [hkperm.countP_eq]
    rw [keepEmBudget_countP_nonEm]
    exact window_countP_nonEm cfg N l
  · have hzero : ((l.drop (window cfg N l).length).countP
        (fun e => isEmergencyEntry cfg e &&
          decide (e ∈ remove_old_backups cfg N M root))) = 0 := by
      rw [List.countP_eq_zero]
      intro e he
      simp only [Bool.and_eq_true, decide_eq_true_eq, not_and]
      intro _ hmem
      have hkept : e ∈ keepEmBudget cfg M (window cfg N l) := hkperm.mem_iff.mp hmem
      have hwin : e ∈ window cfg N l := (keepEmBudget_sublist cfg M _).subset hkept
      have hsplit := window_append_drop cfg N l
      have : l.Nodup := hlnd
      rw [← hsplit, List.nodup_append] at this
      exact this.2.2 hwin he
    omega

/-- Witness for C1 at a concrete input. -/
theorem prune_pass_retention_invariant_witness :
    ([exF, exE] : List BackupEntry).Nodup ∧
    ((remove_old_backups exCfg 1 1 [exF, exE]).countP
        (fun e => !isEmergencyEntry exCfg e) ≤ 1 ∧
      ((sortByDesc (fun e => e.mtime) [exF, exE]).drop
          (window exCfg 1 (sortByDesc (fun e => e.mtime) [exF, exE])).length).countP
        (fun e => isEmergencyEntry exCfg e &&
          decide (e ∈ remove_old_backups exCfg 1 1 [exF, exE])) ≤ 1) :=
  ⟨by decide, prune_pass_retention_invariant exCfg 1 1 [exF, exE] (by decide)⟩

/-- C2 counterexample: limits `skip_full_limit = 1`, `skip_emergency_limit = 1`
over the newest-first entries `[exF (regular), exE (emergency)]`.  After the
regular entry, the running non-emergency count has reached the limit; the claim
says the next emergency entry is still spared (the spare budget 1 is unspent),
but the code deletes it: only the regular entry survives. -/
theorem prune_pass_emergency_after_cex :
    remove_old_backups exCfg 1 1 [exF, exE] = [exF] ∧
    isEmergencyEntry exCfg exE = true ∧
    isEmergencyEntry exCfg exF = false := by decide

/-- C2 (amended): walking newest-first, the emergency spare budget applies to
emergency entries encountered *while the running non-emergency count is still
below* `skip_full_limit` (beyond that budget they are deleted); from the moment
the count reaches `skip_full_limit`, every subsequent entry, emergency or not,
is deleted.  Formally: the walk keeps exactly the window up to the `N`-th
non-emergency entry, thinned to its first `M` emergency entries. -/
theorem prune_pass_walk_characterization (cfg : Config) (N M : Nat)
    (l : List BackupEntry) :
    pruneWalk cfg N M l 0 0 = keepEmBudget cfg M (window cfg N l) := by
  simpa using pruneWalk_eq cfg N M l 0 0

/-- C4: `copy_profile` into a pre-existing destination copies nothing and
leaves the backup root exactly as it was (a full no-op, never a partial
overwrite), reporting the destination-exists failure. -/
theorem copy_profile_destination_exists_noop (cfg : Config)
    (profile : List ProfileEntry) (root : List BackupEntry) (destName : String)
    (now : Nat) (includeExtra : Bool) (h : ∃ e ∈ root, e.name = destName) :
    copy_profile cfg profile root destName now includeExtra =
      (root, Except.error CopyError.destinationExists) := by
  obtain ⟨e, he, hname⟩ := h
  rw [copy_profile, if_pos]
  exact List.any_eq_true.mpr ⟨e, he, by simp [hname]⟩

/-- Witness for C4 at a concrete input. -/
theorem copy_profile_destination_exists_noop_witness :
    (∃ e ∈ [exF], e.name = "2 (regular)") ∧
    copy_profile exCfg [exPrefFile] [exF] "2 (regular)" 3 true =
      ([exF], Except.error CopyError.destinationExists) :=
  ⟨by decide,
    copy_profile_destination_exists_noop exCfg [exPrefFile] [exF] "2 (regular)"
      3 true (by decide)⟩

/-- C5: once the destination directory is fresh (`os.mkdir` succeeds), the
copy never fails as a whole: it yields a report, and every manifest entry is
accounted for in it -- either copied, or recorded as a per-entry failure --
so copying continued across problem entries. -/
theorem copy_profile_never_raises (cfg : Config) (profile : List ProfileEntry)
    (root : List BackupEntry) (destName : String) (now : Nat)
    (includeExtra : Bool) (h : ∀ e ∈ root, e.name ≠ destName) :
    ∃ rep, (copy_profile cfg profile root destName now includeExtra).2 =
        Except.ok rep ∧
      ∀ n ∈ filesToCopy cfg includeExtra,
        n ∈ rep.copied ∨ ∃ k, (n, k) ∈ rep.failures := by
  have hany : root.any (fun e => e.name == destName) = false := by
    rw [List.any_eq_false]
    intro e he
    simp [h e he]
  rw [copy_profile, hany]
  simp only [Bool.false_eq_true, if_false]
  refine ⟨_, rfl, ?_⟩
  intro n hn
  cases hk : (copyOutcome profile n).2 with
  | none =>
    left
    exact List.mem_filter.mpr ⟨hn, by rw [hk]; rfl⟩
  | some k =>
    right
    exact ⟨k, List.mem_filterMap.mpr ⟨n, hn, by rw [hk]; rfl⟩⟩

/-- Witness for C5 at a concrete input (one clean copy, one permission
failure). -/
theorem copy_profile_never_raises_witness :
    (∀ e ∈ ([] : List BackupEntry), e.name ≠ "5 (regular)") ∧
    ∃ rep, (copy_profile exCfg [exPrefFile, exLockedFile] [] "5 (regular)" 5
        true).2 = Except.ok rep ∧
      ∀ n ∈ filesToCopy exCfg true, n ∈ rep.copied ∨ ∃ k, (n, k) ∈ rep.failures :=
  ⟨by simp,
    copy_profile_never_raises exCfg [exPrefFile, exLockedFile] [] "5 (regular)"
      5 true (by simp)⟩

theorem loadMainFilesAux_ok (profileFiles : List String) :
    ∀ (opts : List ManifestOpt) (acc : List String) (cnt : Nat),
      (∀ o ∈ opts, (optIncluded o).isOk = true) →
      loadMainFilesAux profileFiles opts acc cnt =
        Except.ok (acc ++ (opts.filter optIncludedB).map (fun o => o.name),
          cnt + enabledExistingCount profileFiles opts)
  | [], acc, cnt, _ => by simp [loadMainFilesAux, enabledExistingCount]
  | o :: rest, acc, cnt, h => by
    have ho := h o (List.mem_cons_self o rest)
    have hrest : ∀ o' ∈ rest, (optIncluded o').isOk = true :=
      fun o' ho' => h o' (List.mem_cons_of_mem o ho')
    rw [loadMainFilesAux]
    cases hoc : optIncluded o with
    | error err => rw [hoc] at ho; cases ho
    | ok b =>
      have hB : optIncludedB o = b := by
        rw [optIncludedB, hoc]
        cases b <;> rfl
      cases b with
      | false =>
        rw [loadMainFilesAux_ok profileFiles rest acc cnt hrest,
          enabledExistingCount, enabledExistingCount, List.countP_cons,
          List.filter_cons_of_neg (by rw [hB]; exact Bool.false_ne_true)]
        simp [hB]
      | true =>
        rw [loadMainFilesAux_ok profileFiles rest (acc ++ [o.name]) _ hrest,
          enabledExistingCount, enabledExistingCount, List.countP_cons,
          List.filter_cons_of_pos (by rw [hB])]
        by_cases hmem : o.name ∈ profileFiles
        · simp [hB, hmem]
          omega
        · simp [hB, hmem]

theorem loadMainFiles_eq (opts : List ManifestOpt) (profileFiles : List String)
    (hparse : ∀ o ∈ opts, (optIncluded o).isOk = true) :
    loadMainFiles opts profileFiles =
      if enabledExistingCount profileFiles opts < 1 then
        Except.error ConfigError.configurationError
      else Except.ok ((opts.filter optIncludedB).map (fun o => o.name)) := by
  rw [loadMainFiles, loadMainFilesAux_ok profileFiles opts [] 0 hparse]
  show (if 0 + enabledExistingCount profileFiles opts < 1 then
      Except.error ConfigError.configurationError
    else Except.ok ([] ++ (opts.filter optIncludedB).map (fun o => o.name))) = _
  rw [Nat.zero_add, List.nil_append]

/-- C7: provided every manifest option value parses as a boolean, the
MainFiles validation of `load_config` succeeds exactly when some included
entry exists under the profile root, and otherwise fails with the fatal
configuration error. -/
theorem load_config_main_files (opts : List ManifestOpt)
    (profileFiles : List String)
    (hparse : ∀ o ∈ opts, (optIncluded o).isOk = true) :
    ((∃ o ∈ opts, optIncludedB o = true ∧ o.name ∈ profileFiles) →
      ∃ files, loadMainFiles opts profileFiles = Except.ok files) ∧
    ((¬ ∃ o ∈ opts, optIncludedB o = true ∧ o.name ∈ profileFiles) →
      loadMainFiles opts profileFiles =
        Except.error ConfigError.configurationError) := by
  have hexists : (∃ o ∈ opts, optIncludedB o = true ∧
      o.name ∈ profileFiles) ↔ 0 < enabledExistingCount profileFiles opts := by
    rw [enabledExistingCount, List.countP_pos_iff]
    constructor
    · rintro ⟨o, ho, hinc, hmem⟩
      refine ⟨o, ho, ?_⟩
      simp [hinc, hmem]
    · rintro ⟨o, ho, hp⟩
      simp only [Bool.and_eq_true, decide_eq_true_eq] at hp
      exact ⟨o, ho, hp.1, hp.2⟩
  rw [loadMainFiles_eq opts profileFiles hparse]
  constructor
  · intro hex
    have := hexists.mp hex
    rw [if_neg (by omega)]
    exact ⟨_, rfl⟩
  · intro hnex
    have : ¬ 0 < enabledExistingCount profileFiles opts :=
      fun hpos => hnex (hexists.mpr hpos)
    rw [if_pos (by omega)]

/-- Witness for C7: both directions at concrete inputs. -/
theorem load_config_main_files_witness :
    ((∀ o ∈ [ManifestOpt.mk "Preferences" none],
        (optIncluded o).isOk = true) ∧
      (∃ o ∈ [ManifestOpt.mk "Preferences" none],
        optIncludedB o = true ∧ o.name ∈ ["Preferences"]) ∧
      ∃ files, loadMainFiles [ManifestOpt.mk "Preferences" none] ["Preferences"]
        = Except.ok files) ∧
    ((¬ ∃ o ∈ [ManifestOpt.mk "Preferences" none],
        optIncludedB o = true ∧ o.name ∈ ["Bookmarks"]) ∧
      loadMainFiles [ManifestOpt.mk "Preferences" none] ["Bookmarks"] =
        Except.error ConfigError.configurationError) :=
  ⟨⟨by decide, by decide,
    (load_config_main_files [ManifestOpt.mk "Preferences" none] ["Preferences"]
      (by decide)).1 (by decide)⟩,
   ⟨by decide,
    (load_config_main_files [ManifestOpt.mk "Preferences" none] ["Bookmarks"]
      (by decide)).2 (by decide)⟩⟩

/-- C8: any configured detection-strategy tag outside the known set (matched
case-insensitively) makes the activity probe fail with the configuration
error. -/
theorem is_browser_running_unknown_tag (detection : String) (env : ProbeEnv)
    (h : casefold detection ∉ knownStrategyTags) :
    is_browser_running detection env =
      Except.error ConfigError.configurationError := by
  rw [knownStrategyTags] at h
  simp only [List.mem_cons, List.not_mem_nil, or_false, not_or] at h
  obtain ⟨h1, h2, h3, h4, h5⟩ := h
  rw [is_browser_running]
  simp only [if_neg h1, if_neg h2, if_neg h3, if_neg h4, if_neg h5]

/-- Witness for C8 at a concrete unknown tag. -/
theorem is_browser_running_unknown_tag_witness :
    casefold "Edge" ∉ knownStrategyTags ∧
    is_browser_running "Edge" (ProbeEnv.mk false none false false false) =
      Except.error ConfigError.configurationError :=
  ⟨by decide,
    is_browser_running_unknown_tag "Edge"
      (ProbeEnv.mk false none false false false) (by decide)⟩

/-- `strContains` decides substring containment of the character lists. -/
theorem strContains_iff (needle hay : String) :
    strContains needle hay = true ↔ needle.data <:+: hay.data := by
  simp [strContains]

/-- `String.append` concatenates the character lists. -/
theorem string_append_data (a b : String) : (a ++ b).data = a.data ++ b.data :=
  rfl

/-- C9: for every backup directory the compress pass selects, the archive that
replaces it carries the original directory's creation time as its modification
time, is a plain file named `<name>.zip`, appears in the resulting backup
root, and no directory named like the original remains (it was deleted). -/
theorem archive_preserves_creation_time (cfg : Config) (ncF ncA now : Nat)
    (root : List BackupEntry) (hnames : (root.map (fun e => e.name)).Nodup)
    (e : BackupEntry) (he : e ∈ root) (hdir : e.isDir = true)
    (hsel : e.name ∈ compressWalkNames cfg ncF ncA
      (sortByDesc (fun x => x.ctime) (root.filter (fun x => x.isDir))) 0 0) :
    (archive now e).mtime = e.ctime ∧
    (archive now e).name = e.name ++ ".zip" ∧
    (archive now e).isDir = false ∧
    archive now e ∈ compress_backups cfg ncF ncA now root ∧
    ∀ e' ∈ compress_backups cfg ncF ncA now root,
      e'.name = e.name → e'.isDir = false := by
  refine ⟨rfl, rfl, rfl, ?_, ?_⟩
  · rw [compress_backups]
    have harch : (fun x => if x.isDir && decide (x.name ∈ compressWalkNames
        cfg ncF ncA (sortByDesc (fun x => x.ctime)
          (root.filter (fun x => x.isDir))) 0 0) then archive now x else x) e =
        archive now e := by
      simp only [hdir, Bool.true_and, decide_eq_true hsel, if_true]
    rw [← harch]
    exact List.mem_map_of_mem _ he
  · intro e' he' hname
    rw [compress_backups] at he'
    obtain ⟨e₀, he₀, heq⟩ := List.mem_map.mp he'
    by_cases hc : (e₀.isDir && decide (e₀.name ∈ compressWalkNames cfg ncF
        ncA (sortByDesc (fun x => x.ctime) (root.filter (fun x => x.isDir)))
        0 0)) = true
    · rw [if_pos hc] at heq
      rw [← heq]
      rfl
    · rw [if_neg hc] at heq
      subst heq
      have : e₀ = e := List.inj_on_of_nodup_map hnames he₀ he hname
      subst this
      exfalso
      apply hc
      rw [hdir, Bool.true_and]
      exact decide_eq_true hsel

/-- Witness for C9 at a concrete input: with one uncompressed-full slot, the
older of two regular backup directories is archived. -/
theorem archive_preserves_creation_time_witness :
    (([exF, exF2].map (fun e => e.name)).Nodup ∧ exF2 ∈ [exF, exF2] ∧
      exF2.isDir = true ∧
      exF2.name ∈ compressWalkNames exCfg 1 1
        (sortByDesc (fun x => x.ctime) ([exF, exF2].filter (fun x => x.isDir)))
        0 0) ∧
    ((archive 9 exF2).mtime = exF2.ctime ∧
      (archive 9 exF2).name = exF2.name ++ ".zip" ∧
      (archive 9 exF2).isDir = false ∧
      archive 9 exF2 ∈ compress_backups exCfg 1 1 9 [exF, exF2] ∧
      ∀ e' ∈ compress_backups exCfg 1 1 9 [exF, exF2],
        e'.name = exF2.name → e'.isDir = false) :=
  ⟨⟨by decide, by decide, by decide, by decide⟩,
    archive_preserves_creation_time exCfg 1 1 9 [exF, exF2] (by decide) exF2
      (by decide) (by decide) (by decide)⟩

theorem latestAux_none_of_all_false (keep : BackupEntry → Bool) :
    ∀ (root : List BackupEntry) (acc : Option BackupEntry),
      (∀ e ∈ root, keep e = false) → latestAux keep acc root = acc
  | [], acc, _ => by cases acc <;> rfl
  | e :: rest, acc, h => by
    have hk := h e (List.mem_cons_self e rest)
    have hrest := fun e' he' => h e' (List.mem_cons_of_mem e he')
    cases acc with
    | none =>
      rw [latestAux, if_neg (by rw [hk]; exact Bool.false_ne_true)]
      exact latestAux_none_of_all_false keep rest none hrest
    | some b =>
      rw [latestAux, if_neg (by rw [hk]; exact Bool.false_ne_true)]
      exact latestAux_none_of_all_false keep rest (some b) hrest

theorem window_all_em (cfg : Config) :
    ∀ (l : List BackupEntry), (∀ e ∈ l, isEmergencyEntry cfg e = true) →
      ∀ (n : Nat), 0 < n → window cfg n l = l
  | [], _, n, _ => window_nil cfg n
  | e :: rest, hall, n, hn => by
    obtain ⟨k, rfl⟩ : ∃ k, n = k + 1 := ⟨n - 1, by omega⟩
    rw [window, if_pos (hall e (List.mem_cons_self e rest)),
      window_all_em cfg rest
        (fun e' he' => hall e' (List.mem_cons_of_mem e he')) (k + 1) (by omega)]

theorem keepEmBudget_all_em (cfg : Config) :
    ∀ (m : Nat) (l : List BackupEntry),
      (∀ e ∈ l, isEmergencyEntry cfg e = true) →
      keepEmBudget cfg m l = l.take m
  | _, [], _ => by simp [keepEmBudget]
  | 0, e :: rest, hall => by
    rw [keepEmBudget, if_pos (hall e (List.mem_cons_self e rest)),
      keepEmBudget_all_em cfg 0 rest
        (fun e' he' => hall e' (List.mem_cons_of_mem e he'))]
    simp
  | m + 1, e :: rest, hall => by
    rw [keepEmBudget, if_pos (hall e (List.mem_cons_self e rest)),
      keepEmBudget_all_em cfg m rest
        (fun e' he' => hall e' (List.mem_cons_of_mem e he')), List.take_succ_cons]

theorem compressWalkNames_all_em (cfg : Config) (ncF ncA : Nat) :
    ∀ (l : List BackupEntry) (sf se : Nat),
      (∀ e ∈ l, isEmergencyEntry cfg e = true) →
      compressWalkNames cfg ncF ncA l sf se =
        (l.drop (ncA - se)).map (fun e => e.name)
  | [], _, _, _ => by simp [compressWalkNames]
  | e :: rest, sf, se, hall => by
    have he := hall e (List.mem_cons_self e rest)
    have hrest := fun e' he' => hall e' (List.mem_cons_of_mem e he')
    rw [compressWalkNames, if_pos he]
    by_cases hse : se < ncA
    · obtain ⟨k, hk⟩ : ∃ k, ncA - se = k + 1 := ⟨ncA - se - 1, by omega⟩
      have hk' : ncA - (se + 1) = k := by omega
      rw [if_pos hse, compressWalkNames_all_em cfg ncF ncA rest sf (se + 1)
        hrest, hk, hk', List.drop_succ_cons]
    · have h0 : ncA - se = 0 := by omega
      rw [if_neg hse, compressWalkNames_all_em cfg ncF ncA rest sf se hrest,
        h0, List.drop_zero, List.drop_zero, List.map_cons]

/-- C10: emergency classification is a substring test on the entry name in all
three scanning operations, so a policy whose regular tag contains the
emergency tag classifies every regular backup as emergency: regular-format
names test emergency (1), the de-duplication lookup excludes everything (2),
the prune walk spares only the first `skip_emergency_limit` entries of an
all-regular root, charging regular backups to the emergency budget (3), and
the compress walk archives everything beyond the first
`skip_latest_emergency_count` entries (4). -/
theorem emergency_tag_substring_classification (cfg : Config)
    (h : strContains cfg.emergencyBackupTag cfg.fullBackupTag = true) :
    (∀ ts : Nat, strContains cfg.emergencyBackupTag
      (mkBackupDirName cfg ts cfg.fullBackupTag) = true) ∧
    (∀ root : List BackupEntry,
      (∀ e ∈ root, isEmergencyEntry cfg e = true) →
      get_latest_backup_dir cfg true root = none) ∧
    (∀ (l : List BackupEntry) (N M : Nat), 0 < N →
      (∀ e ∈ l, isEmergencyEntry cfg e = true) →
      pruneWalk cfg N M l 0 0 = l.take M) ∧
    (∀ (l : List BackupEntry) (ncF ncA : Nat),
      (∀ e ∈ l, isEmergencyEntry cfg e = true) →
      compressWalkNames cfg ncF ncA l 0 0 = (l.drop ncA).map (fun e => e.name)) := by
  refine ⟨?_, ?_, ?_, ?_⟩
  · intro ts
    rw [strContains_iff] at h ⊢
    refine h.trans ?_
    refine ⟨(cfg.fmtTime ts ++ " (").data, ")".data, ?_⟩
    rw [mkBackupDirName, string_append_data, string_append_data,
      string_append_data]
    simp
  · intro root hall
    rw [get_latest_backup_dir]
    refine latestAux_none_of_all_false _ root none (fun e he => ?_)
    rw [hall e he]
    simp
  · intro l N M hN hall
    rw [pruneWalk_eq cfg N M l 0 0]
    simp only [Nat.sub_zero]
    rw [window_all_em cfg l hall N hN, keepEmBudget_all_em cfg M l hall]
  · intro l ncF ncA hall
    rw [compressWalkNames_all_em cfg ncF ncA l 0 0 hall, Nat.sub_zero]

/-- Witness for C10 with the overlapping tags and two regular-named backup
directories. -/
theorem emergency_tag_substring_classification_witness :
    strContains exCfgTagOverlap.emergencyBackupTag
      exCfgTagOverlap.fullBackupTag = true ∧
    strContains exCfgTagOverlap.emergencyBackupTag
      (mkBackupDirName exCfgTagOverlap 7 exCfgTagOverlap.fullBackupTag) = true ∧
    get_latest_backup_dir exCfgTagOverlap true [exF, exF2] = none ∧
    pruneWalk exCfgTagOverlap 5 1 [exF, exF2] 0 0 = [exF, exF2].take 1 ∧
    compressWalkNames exCfgTagOverlap 5 1 [exF, exF2] 0 0 =
      ([exF, exF2].drop 1).map (fun e => e.name) := by
  have h := emergency_tag_substring_classification exCfgTagOverlap (by decide)
  exact ⟨by decide, h.1 7, h.2.1 [exF, exF2] (by decide),
    h.2.2.1 [exF, exF2] 5 1 (by decide) (by decide),
    h.2.2.2 [exF, exF2] 5 1 (by decide)⟩

theorem filesToCopy_false (cfg : Config) : filesToCopy cfg false = cfg.mainFiles :=
  rfl

/-- `make_backup` with an up-to-date latest backup is a no-op skip. -/
theorem make_backup_skip (cfg : Config) (emergency : Bool) (s : SysState)
    (hp : proceedsToCopy cfg emergency s = false) :
    make_backup cfg emergency s = s := by
  rw [proceedsToCopy] at hp
  rw [make_backup]
  cases hg : get_latest_backup_dir cfg (!emergency) s.root with
  | none => rw [hg] at hp; simp at hp
  | some b =>
    rw [hg] at hp
    simp only at hp
    simp only [hg, hp, Bool.not_false, if_true]

theorem copy_profile_fst_fresh (cfg : Config) (profile : List ProfileEntry)
    (root : List BackupEntry) (destName : String) (now : Nat)
    (includeExtra : Bool) (h : ∀ e ∈ root, e.name ≠ destName) :
    (copy_profile cfg profile root destName now includeExtra).1 =
      root ++ [{ name := destName, isDir := true, ctime := now, mtime := now,
                 data := copyData profile (filesToCopy cfg includeExtra) }] := by
  have hany : root.any (fun e => e.name == destName) = false := by
    rw [List.any_eq_false]
    intro e he
    simp [h e he]
  rw [copy_profile, hany]
  simp

/-- `make_backup(True)` that proceeds to copy: append a fresh emergency-named
directory holding a copy of the MainFiles manifest only, and touch nothing
else (no retention pass). -/
theorem make_backup_emergency_proceed (cfg : Config) (s : SysState)
    (hp : proceedsToCopy cfg true s = true)
    (hf : ∀ e ∈ s.root,
      e.name ≠ mkBackupDirName cfg s.now cfg.emergencyBackupTag) :
    make_backup cfg true s =
      { profile := s.profile,
        root := s.root ++
          [{ name := mkBackupDirName cfg s.now cfg.emergencyBackupTag,
             isDir := true, ctime := s.now, mtime := s.now,
             data := copyData s.profile cfg.mainFiles }],
        now := s.now } := by
  have hroot1 := copy_profile_fst_fresh cfg s.profile s.root
    (mkBackupDirName cfg s.now cfg.emergencyBackupTag) s.now false hf
  rw [proceedsToCopy] at hp
  rw [make_backup]
  cases hg : get_latest_backup_dir cfg (!true) s.root with
  | none =>
    simp only [hg, Bool.not_true, Bool.false_eq_true, if_false, if_true]
    rw [hroot1, filesToCopy_false]
  | some b =>
    rw [hg] at hp
    simp only at hp
    simp only [hg, hp, Bool.not_true, Bool.false_eq_true, if_false, if_true]
    rw [hroot1, filesToCopy_false]

theorem make_backup_full_proceed (cfg : Config) (s : SysState)
    (hp : proceedsToCopy cfg false s = true)
    (hf : ∀ e ∈ s.root, e.name ≠ mkBackupDirName cfg s.now cfg.fullBackupTag) :
    make_backup cfg false s =
      { profile := s.profile, root := fullRootAfter cfg s, now := s.now } := by
  have hroot1 := copy_profile_fst_fresh cfg s.profile s.root
    (mkBackupDirName cfg s.now cfg.fullBackupTag) s.now true hf
  rw [proceedsToCopy] at hp
  rw [make_backup]
  cases hg : get_latest_backup_dir cfg (!false) s.root with
  | none =>
    simp only [hg, Bool.not_false, Bool.false_eq_true, if_false, if_true]
    rw [fullRootAfter, hroot1]
  | some b =>
    rw [hg] at hp
    simp only at hp
    simp only [hg, hp, Bool.not_true, Bool.not_false, Bool.false_eq_true,
      if_false, if_true]
    rw [fullRootAfter, hroot1]

/-- C6: when `make_backup` proceeds to copy: an emergency backup copies only
the MainFiles manifest and runs no retention processing at all (the backup
root gains the new directory and nothing else changes); a full backup copies
MainFiles and ExtraFiles both, then runs the compress pass followed by the
prune pass with the policy-configured limits. -/
theorem make_backup_manifest_retention_dispatch (cfg : Config) (s : SysState)
    (hpE : proceedsToCopy cfg true s = true)
    (hpF : proceedsToCopy cfg false s = true)
    (hfE : ∀ e ∈ s.root,
      e.name ≠ mkBackupDirName cfg s.now cfg.emergencyBackupTag)
    (hfF : ∀ e ∈ s.root, e.name ≠ mkBackupDirName cfg s.now cfg.fullBackupTag) :
    (make_backup cfg true s).root = s.root ++
      [{ name := mkBackupDirName cfg s.now cfg.emergencyBackupTag,
         isDir := true, ctime := s.now, mtime := s.now,
         data := copyData s.profile cfg.mainFiles }] ∧
    (make_backup cfg false s).root =
      remove_old_backups cfg cfg.fullBackupsStoreLimit
        cfg.emergencyBackupsStoreLimit
        (compress_backups cfg cfg.noncompressedFullBackupsLimit
          cfg.noncompressedBackupsLimit s.now
          (s.root ++
            [{ name := mkBackupDirName cfg s.now cfg.fullBackupTag,
               isDir := true, ctime := s.now, mtime := s.now,
               data := copyData s.profile
                 (cfg.mainFiles ++
                   cfg.extraFiles.filter (fun n => !cfg.mainFiles.contains n)) }])) := by
  constructor
  · rw [make_backup_emergency_proceed cfg s hpE hfE]
  · rw [make_backup_full_proceed cfg s hpF hfF, fullRootAfter]
    rfl

/-- Witness for C6: an empty backup root and a one-file profile. -/
theorem make_backup_manifest_retention_dispatch_witness :
    (proceedsToCopy exCfg true (SysState.mk [exPrefFile] [] 4) = true ∧
      proceedsToCopy exCfg false (SysState.mk [exPrefFile] [] 4) = true) ∧
    ((make_backup exCfg true (SysState.mk [exPrefFile] [] 4)).root =
      [] ++ [{ name := mkBackupDirName exCfg 4 exCfg.emergencyBackupTag,
               isDir := true, ctime := 4, mtime := 4,
               data := copyData [exPrefFile] exCfg.mainFiles }] ∧
      (make_backup exCfg false (SysState.mk [exPrefFile] [] 4)).root =
        remove_old_backups exCfg exCfg.fullBackupsStoreLimit
          exCfg.emergencyBackupsStoreLimit
          (compress_backups exCfg exCfg.noncompressedFullBackupsLimit
            exCfg.noncompressedBackupsLimit 4
            ([] ++
              [{ name := mkBackupDirName exCfg 4 exCfg.fullBackupTag,
                 isDir := true, ctime := 4, mtime := 4,
                 data := copyData [exPrefFile]
                   (exCfg.mainFiles ++
                     exCfg.extraFiles.filter
                       (fun n => !exCfg.mainFiles.contains n)) }]))) :=
  ⟨⟨by decide, by decide⟩,
    make_backup_manifest_retention_dispatch exCfg
      (SysState.mk [exPrefFile] [] 4) (by decide) (by decide)
      (by simp) (by simp)⟩

/-- A fold that never changes its accumulator returns it unchanged. -/
theorem foldl_congr_id {α : Type} (g : Nat → α → Nat) :
    ∀ (l : List α), (∀ acc x, x ∈ l → g acc x = acc) →
      ∀ acc, l.foldl g acc = acc
  | [], _, acc => rfl
  | x :: rest, h, acc => by
    rw [List.foldl_cons, h acc x (List.mem_cons_self x rest)]
    exact foldl_congr_id g rest
      (fun a y hy => h a y (List.mem_cons_of_mem x hy)) acc

/-- In an association list with distinct keys, `find?` by key returns the
member itself. -/
theorem find?_fst_eq :
    ∀ (ms : List (String × Nat)), (ms.map Prod.fst).Nodup →
      ∀ m ∈ ms, ms.find? (fun m₁ => m₁.1 == m.1) = some m
  | [], _, m, hm => absurd hm (List.not_mem_nil m)
  | x :: rest, hnd, m, hm => by
    rw [List.map_cons, List.nodup_cons] at hnd
    by_cases hx : x.1 == m.1
    · have hxm : x = m := by
        rcases List.mem_cons.mp hm with rfl | hmr
        · rfl
        · exfalso
          apply hnd.1
          rw [List.mem_map]
          exact ⟨m, hmr, by simpa using (eq_of_beq hx).symm⟩
      rw [@List.find?_cons_of_pos _ (fun m₁ => m₁.1 == m.1) x rest hx, hxm]
    · have hmr : m ∈ rest := by
        rcases List.mem_cons.mp hm with rfl | hmr
        · exact absurd (by simp) hx
        · exact hmr
      rw [@List.find?_cons_of_neg _ (fun m₁ => m₁.1 == m.1) x rest hx]
      exact find?_fst_eq rest hnd.2 m hmr

/-- A directory compared against its own partial copy shows no differing
common member. -/
theorem nodeDiffCount_dir_filtered (ms : List (String × Nat))
    (hnd : (ms.map Prod.fst).Nodup) (q : String × Nat → Bool) :
    nodeDiffCount (Node.dir ms) (Node.dir (ms.filter q)) = 0 := by
  rw [nodeDiffCount]
  refine foldl_congr_id _ (ms.filter q) (fun acc m hm => ?_) 0
  have hmem : m ∈ ms := List.mem_of_mem_filter hm
  rw [find?_fst_eq ms hnd m hmem]
  simp

/-- Every entry of a fresh copy points back to the profile entry it was copied
from, and compares equal to it. -/
theorem copyData_spec (profile : List ProfileEntry) (manifest : List String)
    (hWF : ∀ pe ∈ profile, ∀ ms, pe.node = Node.dir ms →
      (ms.map Prod.fst).Nodup) :
    ∀ b ∈ copyData profile manifest,
      ∃ pe, profile.find? (fun pe => pe.name == b.1) = some pe ∧
        nodeDiffCount pe.node b.2 = 0 := by
  intro b hb
  rw [copyData] at hb
  obtain ⟨m, hm, hout⟩ := List.mem_filterMap.mp hb
  rw [copyOutcome] at hout
  split at hout
  · exact absurd hout (by simp)
  · rename_i pe hf
    have hpe_mem : pe ∈ profile := List.mem_of_find?_eq_some hf
    split at hout
    · rename_i c hnode
      split at hout
      · exact absurd hout (by simp)
      · have hout' : some (m, Node.file c) = some b := hout
        obtain rfl := (Option.some.injEq _ _).mp hout'
        refine ⟨pe, hf, ?_⟩
        rw [hnode]
        simp [nodeDiffCount]
    · rename_i ms hnode
      have hmsnd : (ms.map Prod.fst).Nodup := hWF pe hpe_mem ms hnode
      split at hout
      · have hout' : some (m, Node.dir (copiedDirMembers ms [])) = some b :=
          hout
        obtain rfl := (Option.some.injEq _ _).mp hout'
        refine ⟨pe, hf, ?_⟩
        rw [hnode]
        exact nodeDiffCount_dir_filtered ms hmsnd _
      · have hout' : some (m, Node.dir (copiedDirMembers ms pe.failMembers)) =
          some b := hout
        obtain rfl := (Option.some.injEq _ _).mp hout'
        refine ⟨pe, hf, ?_⟩
        rw [hnode]
        exact nodeDiffCount_dir_filtered ms hmsnd _

/-- A fresh copy is entirely common with the profile it came from. -/
theorem commonCount_copyData (profile : List ProfileEntry)
    (manifest : List String)
    (hWF : ∀ pe ∈ profile, ∀ ms, pe.node = Node.dir ms →
      (ms.map Prod.fst).Nodup) :
    commonCount profile (copyData profile manifest) =
      (copyData profile manifest).length := by
  rw [commonCount, List.countP_eq_length]
  intro b hb
  obtain ⟨pe, hf, _⟩ := copyData_spec profile manifest hWF b hb
  rw [hf]
  rfl

/-- A fresh copy shows no differing common file against its source profile. -/
theorem countDiffFiles_copyData (profile : List ProfileEntry)
    (manifest : List String)
    (hWF : ∀ pe ∈ profile, ∀ ms, pe.node = Node.dir ms →
      (ms.map Prod.fst).Nodup) :
    countDiffFiles profile (copyData profile manifest) = 0 := by
  rw [countDiffFiles]
  refine foldl_congr_id _ (copyData profile manifest)
    (fun acc b hb => ?_) 0
  obtain ⟨pe, hf, hdiff⟩ := copyData_spec profile manifest hWF b hb
  rw [hf]
  show acc + nodeDiffCount pe.node b.2 = acc
  rw [hdiff, Nat.add_zero]

/-- The de-duplication check reports no change between a profile and a
non-empty fresh copy of it. -/
theorem check_unchanged_copyData (profile : List ProfileEntry)
    (manifest : List String)
    (hWF : ∀ pe ∈ profile, ∀ ms, pe.node = Node.dir ms →
      (ms.map Prod.fst).Nodup)
    (hne : copyData profile manifest ≠ []) :
    check_profile_files_changed profile (copyData profile manifest) = false := by
  rw [check_profile_files_changed, commonCount_copyData profile manifest hWF,
    countDiffFiles_copyData profile manifest hWF]
  rw [if_neg]
  · simp
  · simp only [beq_iff_eq, List.length_eq_zero]
    exact hne

/-- Once the running maximum is the strict maximum, the scan keeps it. -/
theorem latestAux_stay (keep : BackupEntry → Bool) (B : BackupEntry) :
    ∀ (l : List BackupEntry),
      (∀ e ∈ l, keep e = true → e ≠ B → e.ctime < B.ctime) →
      latestAux keep (some B) l = some B
  | [], _ => rfl
  | e :: rest, h => by
    have hrest := fun x hx => h x (List.mem_cons_of_mem e hx)
    by_cases hk : keep e = true
    · rw [latestAux, if_pos hk]
      by_cases heB : e = B
      · subst heB
        rw [if_neg (Nat.lt_irrefl _)]
        exact latestAux_stay keep e rest hrest
      · have hlt := h e (List.mem_cons_self e rest) hk heB
        rw [if_neg (by omega)]
        exact latestAux_stay keep B rest hrest
    · rw [latestAux, if_neg hk]
      exact latestAux_stay keep B rest hrest

/-- Python `max` with key `st_ctime` returns the kept entry with the strictly
greatest creation time. -/
theorem latestAux_reach (keep : BackupEntry → Bool) (B : BackupEntry) :
    ∀ (l : List BackupEntry) (acc : Option BackupEntry),
      B ∈ l → keep B = true →
      (∀ e ∈ l, keep e = true → e ≠ B → e.ctime < B.ctime) →
      (acc = none ∨ acc = some B ∨ ∃ a, acc = some a ∧ a.ctime < B.ctime) →
      latestAux keep acc l = some B
  | [], acc, hB, hkB, hmax, hacc => absurd hB (List.not_mem_nil B)
  | e :: rest, acc, hB, hkB, hmax, hacc => by
    have hrest := fun x hx => hmax x (List.mem_cons_of_mem e hx)
    by_cases hk : keep e = true
    · by_cases heB : e = B
      · subst heB
        rcases hacc with rfl | rfl | ⟨a, rfl, ha⟩
        · rw [latestAux, if_pos hk]
          exact latestAux_stay keep e rest hrest
        · rw [latestAux, if_pos hk, if_neg (Nat.lt_irrefl _)]
          exact latestAux_stay keep e rest hrest
        · rw [latestAux, if_pos hk, if_pos ha]
          exact latestAux_stay keep e rest hrest
      · have hBrest : B ∈ rest := by
          rcases List.mem_cons.mp hB with rfl | hBr
          · exact absurd rfl heB
          · exact hBr
        have hlt := hmax e (List.mem_cons_self e rest) hk heB
        rcases hacc with rfl | rfl | ⟨a, rfl, ha⟩
        · rw [latestAux, if_pos hk]
          exact latestAux_reach keep B rest (some e) hBrest hkB hrest
            (Or.inr (Or.inr ⟨e, rfl, hlt⟩))
        · rw [latestAux, if_pos hk, if_neg (by omega)]
          exact latestAux_reach keep B rest (some B) hBrest hkB hrest
            (Or.inr (Or.inl rfl))
        · by_cases hae : a.ctime < e.ctime
          · rw [latestAux, if_pos hk, if_pos hae]
            exact latestAux_reach keep B rest (some e) hBrest hkB hrest
              (Or.inr (Or.inr ⟨e, rfl, hlt⟩))
          · rw [latestAux, if_pos hk, if_neg hae]
            exact latestAux_reach keep B rest (some a) hBrest hkB hrest
              (Or.inr (Or.inr ⟨a, rfl, ha⟩))
    · have hBrest : B ∈ rest := by
        rcases List.mem_cons.mp hB with rfl | hBr
        · exact absurd hkB hk
        · exact hBr
      cases acc with
      | none =>
        rw [latestAux, if_neg hk]
        exact latestAux_reach keep B rest none hBrest hkB hrest hacc
      | some b =>
        rw [latestAux, if_neg hk]
        exact latestAux_reach keep B rest (some b) hBrest hkB hrest hacc

/-- `get_latest_backup_dir` returns the eligible entry with the strictly
greatest creation time. -/
theorem get_latest_strict_max (cfg : Config) (excl : Bool)
    (root : List BackupEntry) (B : BackupEntry) (hmem : B ∈ root)
    (hkB : (B.isDir && (!excl || !isEmergencyEntry cfg B)) = true)
    (hmax : ∀ e ∈ root,
      (e.isDir && (!excl || !isEmergencyEntry cfg e)) = true →
      e ≠ B → e.ctime < B.ctime) :
    get_latest_backup_dir cfg excl root = some B := by
  rw [get_latest_backup_dir]
  exact latestAux_reach _ B root none hmem hkB hmax (Or.inl rfl)

/-- Names the compress walk selects all come from the walked entries. -/
theorem compressWalkNames_subset (cfg : Config) (a b : Nat) :
    ∀ (l : List BackupEntry) (sf se : Nat) (n : String),
      n ∈ compressWalkNames cfg a b l sf se → n ∈ l.map (fun e => e.name)
  | [], _, _, _, hn => absurd hn (List.not_mem_nil _)
  | e :: rest, sf, se, n, hn => by
    rw [compressWalkNames] at hn
    rw [List.map_cons]
    by_cases hem : isEmergencyEntry cfg e
    · rw [if_pos hem] at hn
      by_cases hse : se < b
      · rw [if_pos hse] at hn
        exact List.mem_cons_of_mem _ (compressWalkNames_subset cfg a b rest sf
          (se + 1) n hn)
      · rw [if_neg hse] at hn
        rcases List.mem_cons.mp hn with rfl | hn
        · exact List.mem_cons_self _ _
        · exact List.mem_cons_of_mem _ (compressWalkNames_subset cfg a b rest
            sf se n hn)
    · rw [if_neg hem] at hn
      by_cases hsf : sf < a
      · rw [if_pos hsf] at hn
        exact List.mem_cons_of_mem _ (compressWalkNames_subset cfg a b rest
          (sf + 1) se n hn)
      · rw [if_neg hsf] at hn
        rcases List.mem_cons.mp hn with rfl | hn
        · exact List.mem_cons_self _ _
        · exact List.mem_cons_of_mem _ (compressWalkNames_subset cfg a b rest
            sf se n hn)

/-- A non-emergency head within the full budget is skipped by the compress
walk. -/
theorem compressWalkNames_cons_skip (cfg : Config) (ncF ncA : Nat)
    (B : BackupEntry) (rest : List BackupEntry)
    (hem : isEmergencyEntry cfg B = false) (h : 0 < ncF) :
    compressWalkNames cfg ncF ncA (B :: rest) 0 0 =
      compressWalkNames cfg ncF ncA rest 1 0 := by
  rw [compressWalkNames, if_neg (by rw [hem]; exact Bool.false_ne_true),
    if_pos h]

/-- A non-emergency head within the full budget is kept by the prune walk. -/
theorem pruneWalk_cons_keep (cfg : Config) (N M : Nat) (B : BackupEntry)
    (rest : List BackupEntry) (hem : isEmergencyEntry cfg B = false)
    (hN : 0 < N) :
    pruneWalk cfg N M (B :: rest) 0 0 = B :: pruneWalk cfg N M rest 1 0 := by
  rw [pruneWalk, if_pos hN, if_neg (by rw [hem]; exact Bool.false_ne_true)]

theorem compress_backups_eq (cfg : Config) (a b now : Nat)
    (root : List BackupEntry) :
    compress_backups cfg a b now root = root.map (fun e =>
      if e.isDir && decide (e.name ∈ compressWalkNames cfg a b
        (sortByDesc (fun x => x.ctime) (root.filter (fun x => x.isDir))) 0 0)
      then archive now e else e) := rfl

theorem remove_old_backups_eq (cfg : Config) (a b : Nat)
    (root : List BackupEntry) :
    remove_old_backups cfg a b root = root.filter (fun e =>
      decide (e ∈ pruneWalk cfg a b
        (sortByDesc (fun x => x.mtime) root) 0 0)) := rfl

/-- A fresh backup directory with the strictly greatest creation time and a
non-emergency name survives the compress pass untouched, and everything else
in the result is an old entry or the archive of an old entry. -/
theorem compress_backups_fresh (cfg : Config) (a b now : Nat)
    (root0 : List BackupEntry) (B : BackupEntry)
    (hnames : ((root0 ++ [B]).map (fun e => e.name)).Nodup)
    (hdir : B.isDir = true)
    (hem : isEmergencyEntry cfg B = false)
    (ha : 0 < a)
    (hct : ∀ e ∈ root0, e.ctime < B.ctime) :
    B ∈ compress_backups cfg a b now (root0 ++ [B]) ∧
    ∀ e ∈ compress_backups cfg a b now (root0 ++ [B]),
      e = B ∨ e ∈ root0 ∨ ∃ e₀ ∈ root0, e = archive now e₀ := by
  have hnd1 : (root0 ++ [B]).Nodup := List.Nodup.of_map _ hnames
  have hBmem1 : B ∈ root0 ++ [B] :=
    List.mem_append.mpr (Or.inr (List.mem_singleton.mpr rfl))
  have hBdirs : B ∈ (root0 ++ [B]).filter (fun x => x.isDir) :=
    List.mem_filter.mpr ⟨hBmem1, hdir⟩
  have hfilnd : ((root0 ++ [B]).filter (fun x => x.isDir)).Nodup :=
    hnd1.filter _
  have hdmax : ∀ e ∈ (root0 ++ [B]).filter (fun x => x.isDir), e ≠ B →
      e.ctime < B.ctime := by
    intro e he hne
    rcases List.mem_append.mp (List.mem_filter.mp he).1 with h | h
    · exact hct e h
    · exact absurd (List.mem_singleton.mp h) hne
  obtain ⟨restD, hsortD, hrestD⟩ := sortByDesc_eq_cons_of_strict_max
    (fun e => e.ctime) ((root0 ++ [B]).filter (fun x => x.isDir)) B hBdirs hdmax
  have htoA : compressWalkNames cfg a b
      (sortByDesc (fun x => x.ctime) ((root0 ++ [B]).filter (fun x => x.isDir)))
      0 0 = compressWalkNames cfg a b restD 1 0 := by
    rw [hsortD, compressWalkNames_cons_skip cfg a b B restD hem ha]
  have hBnotArch : B.name ∉ compressWalkNames cfg a b restD 1 0 := by
    intro hmem
    obtain ⟨e, he, hname⟩ := List.mem_map.mp
      (compressWalkNames_subset cfg a b restD 1 0 B.name hmem)
    have heE : e ∈ ((root0 ++ [B]).filter (fun x => x.isDir)).erase B :=
      hrestD.subset he
    obtain ⟨hneB, heF⟩ := (List.Nodup.mem_erase_iff hfilnd).mp heE
    have he1 : e ∈ root0 ++ [B] := (List.mem_filter.mp heF).1
    exact hneB (List.inj_on_of_nodup_map hnames he1 hBmem1 hname)
  have hfB : (if B.isDir && decide (B.name ∈ compressWalkNames cfg a b restD
      1 0) then archive now B else B) = B := by
    rw [if_neg]
    simp only [Bool.and_eq_true, decide_eq_true_eq]
    intro hc
    exact hBnotArch hc.2
  rw [compress_backups_eq, htoA]
  constructor
  · exact List.mem_map.mpr ⟨B, hBmem1, hfB⟩
  · intro e he
    obtain ⟨e₀, he₀, heq⟩ := List.mem_map.mp he
    rcases List.mem_append.mp he₀ with h | h
    · by_cases hc : (e₀.isDir && decide (e₀.name ∈ compressWalkNames cfg a b
          restD 1 0)) = true
      · rw [if_pos hc] at heq
        exact Or.inr (Or.inr ⟨e₀, h, heq.symm⟩)
      · rw [if_neg hc] at heq
        exact Or.inr (Or.inl (heq ▸ h))
    · rw [List.mem_singleton.mp h] at heq
      rw [hfB] at heq
      exact Or.inl heq.symm

/-- A non-emergency entry with the strictly greatest modification time
survives the prune pass; the pass only ever removes entries. -/
theorem remove_old_backups_keeps_max (cfg : Config) (a b : Nat)
    (root : List BackupEntry) (B : BackupEntry) (hmem : B ∈ root)
    (hem : isEmergencyEntry cfg B = false) (ha : 0 < a)
    (hmt : ∀ e ∈ root, e ≠ B → e.mtime < B.mtime) :
    B ∈ remove_old_backups cfg a b root ∧
    ∀ e ∈ remove_old_backups cfg a b root, e ∈ root := by
  obtain ⟨restP, hsortP, _⟩ := sortByDesc_eq_cons_of_strict_max
    (fun e => e.mtime) root B hmem hmt
  have hBkept : B ∈ pruneWalk cfg a b
      (sortByDesc (fun x => x.mtime) root) 0 0 := by
    rw [hsortP, pruneWalk_cons_keep cfg a b B restP hem ha]
    exact List.mem_cons_self B _
  rw [remove_old_backups_eq]
  constructor
  · exact List.mem_filter.mpr ⟨hmem, decide_eq_true hBkept⟩
  · intro e he
    exact (List.mem_filter.mp he).1

/-- C3: calling `make_backup(False)` twice in succession with no profile
change in between produces exactly one new backup entry, not two.  The first
call appends exactly one fresh directory `freshFullEntry cfg s0` (every other
entry of the resulting root is an old entry or the archive of an old entry);
the second call, at any later clock `t2`, finds that directory as the latest
non-emergency backup, detects no change against it, and is a no-op skip. -/
theorem make_backup_idempotent_no_change (cfg : Config) (s0 : SysState)
    (t2 : Nat)
    (hproceed : proceedsToCopy cfg false s0 = true)
    (hnames : (s0.root.map (fun e => e.name)).Nodup)
    (hfresh : ∀ e ∈ s0.root,
      e.name ≠ mkBackupDirName cfg s0.now cfg.fullBackupTag)
    (hctime : ∀ e ∈ s0.root, e.ctime < s0.now)
    (hmtime : ∀ e ∈ s0.root, e.mtime < s0.now)
    (hBnotEm : strContains cfg.emergencyBackupTag
      (mkBackupDirName cfg s0.now cfg.fullBackupTag) = false)
    (hncF : 0 < cfg.noncompressedFullBackupsLimit)
    (hstore : 0 < cfg.fullBackupsStoreLimit)
    (hne : copyData s0.profile (filesToCopy cfg true) ≠ [])
    (hWF : ∀ pe ∈ s0.profile, ∀ ms, pe.node = Node.dir ms →
      (ms.map Prod.fst).Nodup) :
    (make_backup cfg false
        (SysState.mk (make_backup cfg false s0).profile
          (make_backup cfg false s0).root t2)).root =
      (make_backup cfg false s0).root ∧
    freshFullEntry cfg s0 ∈ (make_backup cfg false s0).root ∧
    (∀ e ∈ (make_backup cfg false s0).root, e ≠ freshFullEntry cfg s0 →
      e ∈ s0.root ∨ ∃ e₀ ∈ s0.root, e = archive s0.now e₀) ∧
    get_latest_backup_dir cfg true (make_backup cfg false s0).root =
      some (freshFullEntry cfg s0) ∧
    check_profile_files_changed (make_backup cfg false s0).profile
      (freshFullEntry cfg s0).data = false := by
  have hs1 : make_backup cfg false s0 =
      { profile := s0.profile, root := fullRootAfter cfg s0, now := s0.now } :=
    make_backup_full_proceed cfg s0 hproceed hfresh
  have hBem : isEmergencyEntry cfg (freshFullEntry cfg s0) = false := hBnotEm
  have hBdir : (freshFullEntry cfg s0).isDir = true := rfl
  have hnames1 : ((s0.root ++ [freshFullEntry cfg s0]).map
      (fun e => e.name)).Nodup := by
    rw [List.map_append, List.nodup_append]
    refine ⟨hnames, List.nodup_singleton _, ?_⟩
    intro x hx hx2
    obtain ⟨e, he, rfl⟩ := List.mem_map.mp hx
    have hxn : e.name = (freshFullEntry cfg s0).name := by
      simpa using hx2
    exact hfresh e he hxn
  obtain ⟨hBc, hshape⟩ := compress_backups_fresh cfg
    cfg.noncompressedFullBackupsLimit cfg.noncompressedBackupsLimit s0.now
    s0.root (freshFullEntry cfg s0) hnames1 hBdir hBem hncF
    (fun e he => hctime e he)
  have hmt2 : ∀ e ∈ compress_backups cfg cfg.noncompressedFullBackupsLimit
      cfg.noncompressedBackupsLimit s0.now
      (s0.root ++ [freshFullEntry cfg s0]),
      e ≠ freshFullEntry cfg s0 →
      e.mtime < (freshFullEntry cfg s0).mtime := by
    intro e he hne
    rcases hshape e he with rfl | h | ⟨e₀, he₀, rfl⟩
    · exact absurd rfl hne
    · exact hmtime e h
    · exact hctime e₀ he₀
  obtain ⟨hBp, hsub3⟩ := remove_old_backups_keeps_max cfg
    cfg.fullBackupsStoreLimit cfg.emergencyBackupsStoreLimit _
    (freshFullEntry cfg s0) hBc hBem hstore hmt2
  have hs1root : (make_backup cfg false s0).root =
      remove_old_backups cfg cfg.fullBackupsStoreLimit
        cfg.emergencyBackupsStoreLimit
        (compress_backups cfg cfg.noncompressedFullBackupsLimit
          cfg.noncompressedBackupsLimit s0.now
          (s0.root ++ [freshFullEntry cfg s0])) := by
    rw [hs1]
    rfl
  have hs1prof : (make_backup cfg false s0).profile = s0.profile := by
    rw [hs1]
  have hglatest : get_latest_backup_dir cfg true
      (make_backup cfg false s0).root = some (freshFullEntry cfg s0) := by
    rw [hs1root]
    refine get_latest_strict_max cfg true _ (freshFullEntry cfg s0) hBp
      (by rw [hBem]; rfl) ?_
    intro e he hk hne
    rcases hshape e (hsub3 e he) with rfl | h | ⟨e₀, he₀, rfl⟩
    · exact absurd rfl hne
    · exact hctime e h
    · exfalso
      simp [archive] at hk
  have hchanged : check_profile_files_changed s0.profile
      (copyData s0.profile (filesToCopy cfg true)) = false :=
    check_unchanged_copyData s0.profile (filesToCopy cfg true) hWF hne
  have hskip2 : proceedsToCopy cfg false
      (SysState.mk (make_backup cfg false s0).profile
        (make_backup cfg false s0).root t2) = false := by
    rw [proceedsToCopy]
    show (match get_latest_backup_dir cfg true
        (make_backup cfg false s0).root with
      | some b =>
        check_profile_files_changed (make_backup cfg false s0).profile b.data
      | none => true) = false
    rw [hglatest]
    show check_profile_files_changed (make_backup cfg false s0).profile
      (freshFullEntry cfg s0).data = false
    rw [hs1prof]
    exact hchanged
  have hs2 := make_backup_skip cfg false
    (SysState.mk (make_backup cfg false s0).profile
      (make_backup cfg false s0).root t2) hskip2
  refine ⟨?_, ?_, ?_, hglatest, ?_⟩
  · rw [hs2]
  · rw [hs1root]
    exact hBp
  · intro e he hne
    rw [hs1root] at he
    rcases hshape e (hsub3 e he) with rfl | h | ⟨e₀, he₀, rfl⟩
    · exact absurd rfl hne
    · exact Or.inl h
    · exact Or.inr ⟨e₀, he₀, rfl⟩
  · rw [hs1prof]
    exact hchanged

/-- Witness for C3: a one-file profile, an empty backup root, clocks 10 and
11. -/
theorem make_backup_idempotent_no_change_witness :
    (proceedsToCopy exCfg false (SysState.mk [exPrefFile] [] 10) = true ∧
      copyData [exPrefFile] (filesToCopy exCfg true) ≠ []) ∧
    ((make_backup exCfg false (SysState.mk
        (make_backup exCfg false (SysState.mk [exPrefFile] [] 10)).profile
        (make_backup exCfg false (SysState.mk [exPrefFile] [] 10)).root
        11)).root =
      (make_backup exCfg false (SysState.mk [exPrefFile] [] 10)).root ∧
      freshFullEntry exCfg (SysState.mk [exPrefFile] [] 10) ∈
        (make_backup exCfg false (SysState.mk [exPrefFile] [] 10)).root ∧
      (∀ e ∈ (make_backup exCfg false (SysState.mk [exPrefFile] [] 10)).root,
        e ≠ freshFullEntry exCfg (SysState.mk [exPrefFile] [] 10) →
        e ∈ ([] : List BackupEntry) ∨ ∃ e₀ ∈ ([] : List BackupEntry),
          e = archive 10 e₀) ∧
      get_latest_backup_dir exCfg true
        (make_backup exCfg false (SysState.mk [exPrefFile] [] 10)).root =
        some (freshFullEntry exCfg (SysState.mk [exPrefFile] [] 10)) ∧
      check_profile_files_changed
        (make_backup exCfg false (SysState.mk [exPrefFile] [] 10)).profile
        (freshFullEntry exCfg (SysState.mk [exPrefFile] [] 10)).data = false) :=
  ⟨⟨by decide, by decide⟩,
    make_backup_idempotent_no_change exCfg (SysState.mk [exPrefFile] [] 10) 11
      (by decide) (by decide) (by simp) (by simp) (by simp) (by decide)
      (by decide) (by decide) (by decide)
      (by
        intro pe hpe ms hms
        rw [List.mem_singleton] at hpe
        subst hpe
        exact absurd hms (by simp [exPrefFile]))⟩

end Browsession
